import Mathlib

/-
Formal model of the scerb/rpc-relay service: a JSON-RPC reverse proxy with a
health monitor (src/health_monitor.py) and a relay request handler with TTL
cache, sliding-window rate limiting, tiered weighted round-robin selection and
config hot-reload (src/main.py).

Wall-clock times, durations and latencies are modelled as integers (clock
ticks with 1 s = one unit times the literals 1, 30, 60 used by the code);
block numbers and counters are naturals; the "infinity" sentinels of the
Python code (float inf) are the top element of WithTop.  All claims proved
below use only linear-order and additive-group reasoning about times, so they
are insensitive to the density of the time domain.  JSON values are modelled
by a first-order inductive type.
-/

/-- JSON values, encoding arrays and objects as cons-lists inside the same
inductive so that equality is derivable. -/
inductive JVal where
  | jnull : JVal
  | jbool : Bool → JVal
  | jnum : Int → JVal
  | jstr : String → JVal
  | jarrNil : JVal
  | jarrCons : JVal → JVal → JVal
  | jobjNil : JVal
  | jobjCons : String → JVal → JVal → JVal
deriving DecidableEq

open JVal

/-- A top-level JSON object (a Python dict) as an insertion-ordered
association list with unique keys. -/
abbrev Resp := List (String × JVal)

/-- Python dict read d.get(k, default) over an association list where a later
binding overwrites an earlier one (dict build-up order). -/
def dictGetD {α β : Type} [DecidableEq α] : List (α × β) → α → β → β
  | [], _, d => d
  | (k, v) :: rest, key, d => dictGetD rest key (if k = key then v else d)

/-- Python dict read d.get(k) returning None when absent, over an association
list with unique keys (as maintained by dictSet). -/
def dictFind {α β : Type} [DecidableEq α] (l : List (α × β)) (k : α) : Option β :=
  (l.find? (fun p => decide (p.1 = k))).map Prod.snd

/-- Python dict assignment on an association list with unique keys:
replace the binding in place, or append it. -/
def dictSet {α β : Type} [DecidableEq α] : List (α × β) → α → β → List (α × β)
  | [], k, v => [(k, v)]
  | (k', v') :: rest, k, v =>
    if k' = k then (k, v) :: rest else (k', v') :: dictSet rest k v

/-- Python dict assignment resp[k] = v on a JSON object. -/
def setField (r : Resp) (k : String) (v : JVal) : Resp := dictSet r k v

/-- Python dict read resp.get(k) on a JSON object. -/
def getField (r : Resp) (k : String) : Option JVal := dictFind r k

/-- One endpoint record of the monitor (an element of RPCStatusMonitor.rpcs). -/
structure Rpc where
  url : String
  max_tps : Nat
  healthy : Bool
  behind : ℕ∞
  latest_block : Nat
  latency : WithTop ℤ
  errors : Nat
  call_count : Nat
  timestamps : List ℤ
deriving DecidableEq

/-- Stable insertion into a list sorted by the boolean preorder le: the new
element goes before the first element it is le-related to, so equal keys keep
their original relative order (the behaviour of Python sorted). -/
def insertLe {α : Type} (le : α → α → Bool) (x : α) : List α → List α
  | [] => [x]
  | y :: ys => if le x y then x :: y :: ys else y :: insertLe le x ys

/-- Stable insertion sort by the boolean preorder le (Python sorted). -/
def sortLe {α : Type} (le : α → α → Bool) : List α → List α
  | [] => []
  | x :: xs => insertLe le x (sortLe le xs)

/-- The sort key of get_healthy_rpcs: lexicographic on (behind, latency). -/
def rpcLe (a b : Rpc) : Bool :=
  decide (a.behind < b.behind ∨ (a.behind = b.behind ∧ a.latency ≤ b.latency))

/-- get_healthy_rpcs: the healthy endpoints sorted by (behind, latency). -/
def get_healthy_rpcs (rpcs : List Rpc) : List Rpc :=
  sortLe rpcLe (rpcs.filter (fun r => r.healthy))

/-- Window pruning in the relay handler: pop from the left while the head is
older than now - 60 s. -/
def pruneWindow (ts : List ℤ) (now : ℤ) : List ℤ :=
  ts.dropWhile (fun x => decide (x < now - 60))

/-- tps_count: number of window entries at or after now - 1 s. -/
def tpsCount (ts : List ℤ) (now : ℤ) : Nat :=
  ts.countP (fun x => decide (now - 1 ≤ x))

/-- The rate-limit filter of the relay handler, applied to an endpoint whose
window has just been pruned: keep iff max_tps <= 0 or tps_count < max_tps. -/
def rateLimitOk (r : Rpc) (now : ℤ) : Bool :=
  decide (r.max_tps ≤ 0) || decide (tpsCount (pruneWindow r.timestamps now) now < r.max_tps)

/-- The window of an endpoint right after it is selected: the pruned window
with the send timestamp appended on the right. -/
def windowAfterSelect (r : Rpc) (now : ℤ) : List ℤ :=
  pruneWindow r.timestamps now ++ [now]

/-- Number of timestamps of a window lying in the half-open interval
(t - 1 s, t]. -/
def countLastSecond (w : List ℤ) (t : ℤ) : Nat :=
  w.countP (fun x => decide (t - 1 < x ∧ x ≤ t))

/-- Result of the eth_blockNumber probe of the endpoint at a given position in
the monitor list: block number and probe latency on success, none on any
exception (timeout, transport, parse). -/
abbrev Probe := Nat → Option (Nat × ℤ)

/-- Phase A of update_statuses on one endpoint record. -/
def probeOne (res : Option (Nat × ℤ)) (r : Rpc) : Rpc :=
  match res with
  | some (b, lat) =>
    { r with healthy := true, latency := (lat : WithTop ℤ), errors := 0, latest_block := b }
  | none =>
    { r with healthy := false, latency := ⊤, behind := ⊤, errors := r.errors + 1 }

/-- Phase A of update_statuses over the list tail whose head sits at index i. -/
def probePhase (probe : Probe) : Nat → List Rpc → List Rpc
  | _, [] => []
  | i, r :: rs => probeOne (probe i) r :: probePhase probe (i + 1) rs

/-- The temp_blocks dict of update_statuses, built in probe order: one entry
(url, block) per successfully probed endpoint. -/
def tempBlocks (probe : Probe) : Nat → List Rpc → List (String × Nat)
  | _, [] => []
  | i, r :: rs =>
    match probe i with
    | some (b, _) => (r.url, b) :: tempBlocks probe (i + 1) rs
    | none => tempBlocks probe (i + 1) rs

/-- The block_numbers list of update_statuses (one entry per successful probe,
in probe order). -/
def blockNumbers (probe : Probe) (i : Nat) (rs : List Rpc) : List Nat :=
  (tempBlocks probe i rs).map Prod.snd

/-- max(block_numbers) if block_numbers else 0. -/
def maxBlockNat (l : List Nat) : Nat := l.foldr max 0

/-- The max_block of one update_statuses cycle. -/
def maxBlock (probe : Probe) (rpcs : List Rpc) : Nat :=
  maxBlockNat (blockNumbers probe 0 rpcs)

/-- Phase B of update_statuses on one endpoint record: compute behind from
temp_blocks and demote on staleness. -/
def classifyPhase (tmp : List (String × Nat)) (mxb mb : Nat) (r : Rpc) : Rpc :=
  if r.healthy then
    let lb := dictGetD tmp r.url 0
    let d := mxb - lb
    if d > mb then { r with healthy := false, behind := ⊤ }
    else { r with behind := (d : ℕ∞) }
  else r

/-- update_statuses (probing and classification; the throttled config reload
that precedes it is modelled separately). -/
def update_statuses (probe : Probe) (mb : Nat) (rpcs : List Rpc) : List Rpc :=
  (probePhase probe 0 rpcs).map
    (classifyPhase (tempBlocks probe 0 rpcs) (maxBlock probe rpcs) mb)

/-- A concrete probe for witnesses: endpoint 0 sees block 100, endpoint 1 sees
block 90, endpoint 2 fails. -/
def probeW : Probe := fun i =>
  if i = 0 then some (100, 5) else if i = 1 then some (90, 7) else none

/-- A concrete endpoint record for witnesses. -/
def rpcW (u : String) : Rpc :=
  { url := u, max_tps := 0, healthy := true, behind := 0, latest_block := 0,
    latency := ⊤, errors := 0, call_count := 0, timestamps := [] }

/-- A concrete monitor list for witnesses. -/
def rpcsW : List Rpc := [rpcW "a", rpcW "b", rpcW "c"]

/-- The record of endpoint 0 after the witness cycle. -/
def rOutW : Rpc :=
  { url := "a", max_tps := 0, healthy := true, behind := 0, latest_block := 100,
    latency := (5 : ℤ), errors := 0, call_count := 0, timestamps := [] }

/-- One endpoint entry of config.yaml (url/weight/max_tps, each optional). -/
structure EpConfig where
  url : Option String
  weight : Option Nat
  max_tps : Option Nat
deriving DecidableEq

/-- A parsed config.yaml snapshot (the fields the relay and monitor read). -/
structure Config where
  primary : List EpConfig
  secondary : List EpConfig
  max_blocks_behind : Option Nat
  cache_ttl : List (String × ℤ)
  monitor_interval : Option ℤ
  latency_threshold_ms : Option ℤ
deriving DecidableEq

/-- The fresh endpoint record built by _build_initial_rpc_list. -/
def initRpc (u : String) (tps : Nat) : Rpc :=
  { url := u, max_tps := tps, healthy := true, behind := 0, latest_block := 0,
    latency := ⊤, errors := 0, call_count := 0, timestamps := [] }

/-- _build_initial_rpc_list: primary then secondary, keeping entries with a
truthy (present, non-empty) url, with max_tps defaulting to 0. -/
def build_initial_rpc_list (cfg : Config) : List Rpc :=
  (cfg.primary ++ cfg.secondary).filterMap (fun ep =>
    match ep.url with
    | some u => if u ≠ "" then some (initRpc u (ep.max_tps.getD 0)) else none
    | none => none)

/-- A concrete config for witnesses: one primary with a url, one secondary
with a url and max_tps 2, and one url-less entry that is dropped. -/
def cfgW : Config :=
  { primary := [⟨some "a", some 3, none⟩, ⟨none, none, none⟩],
    secondary := [⟨some "b", none, some 2⟩],
    max_blocks_behind := some 6, cache_ttl := [("eth_chainId", 60)],
    monitor_interval := some 5, latency_threshold_ms := none }

/-- One TTL cache entry: the store time and the stored response object. -/
structure CacheEntry where
  time : ℤ
  response : Resp
deriving DecidableEq

/-- The cache key: (method, canonical JSON of params); canonical JSON is
injective on JSON values up to object-key order, which the value itself
represents here. -/
abbrev CacheKey := String × JVal

abbrev Cache := List (CacheKey × CacheEntry)

/-- The TTL-cache lookup of the relay handler.  A hit needs the method in
cache_ttl, a stored entry, and now - stored_at < ttl.  On a hit the caller id
is assigned into the top-level id of the STORED response object (the Python
code mutates entry["response"] in place) and that same object is returned, so
the result carries both the returned response and the updated cache. -/
def cacheLookup (cache : Cache) (ttl : List (String × ℤ)) (method : String)
    (params : JVal) (cid : JVal) (now : ℤ) : Option (Resp × Cache) :=
  match dictFind ttl method with
  | none => none
  | some tl =>
    match dictFind cache (method, params) with
    | none => none
    | some e =>
      if now - e.time < tl then
        some (setField e.response "id" cid,
          dictSet cache (method, params) ⟨e.time, setField e.response "id" cid⟩)
      else none

/-- The cache fill of the relay handler after a successful forward. -/
def cacheStore (cache : Cache) (ttl : List (String × ℤ)) (method : String)
    (params : JVal) (resp : Resp) (now : ℤ) : Cache :=
  if (dictFind ttl method).isSome then dictSet cache (method, params) ⟨now, resp⟩
  else cache

/-- A concrete stored response for cache witnesses. -/
def respC3 : Resp := [("jsonrpc", jstr "2.0"), ("id", jnum 1), ("result", jstr "0x1")]

/-- A concrete cache holding one eth_chainId entry stored at time 0. -/
def cacheC3 : Cache := [(("eth_chainId", jarrNil), ⟨0, respC3⟩)]

/-- A concrete cache_ttl map. -/
def ttlC3 : List (String × ℤ) := [("eth_chainId", 60)]

/-- The response returned by the concrete hit (caller id 2). -/
def respOutC3 : Resp := [("jsonrpc", jstr "2.0"), ("id", jnum 2), ("result", jstr "0x1")]

/-- The cache after the concrete hit: the stored entry now carries id 2. -/
def cacheOutC3 : Cache := [(("eth_chainId", jarrNil), ⟨0, respOutC3⟩)]

/-- The rate-limit survivors that lie in the config's primary tier. -/
def primariesOf (avail : List Rpc) (pUrls : List String) : List Rpc :=
  avail.filter (fun r => decide (r.url ∈ pUrls))

/-- The rate-limit survivors that lie in the config's secondary tier. -/
def secondariesOf (avail : List Rpc) (sUrls : List String) : List Rpc :=
  avail.filter (fun r => decide (r.url ∈ sUrls))

/-- chosen_set = primaries if primaries else secondaries. -/
def chosenSet (avail : List Rpc) (pUrls sUrls : List String) : List Rpc :=
  if primariesOf avail pUrls = [] then secondariesOf avail sUrls else primariesOf avail pUrls

/-- Weight expansion: each endpoint repeated url_weights.get(url, 1) times,
in order of first appearance. -/
def weightedList (wts : String → Nat) : List Rpc → List Rpc
  | [] => []
  | r :: rest => List.replicate (wts r.url) r ++ weightedList wts rest

/-- Minimum latency of a list (Python min; only used on nonempty lists). -/
def minLatency (l : List Rpc) : WithTop ℤ :=
  l.foldr (fun r m => min r.latency m) ⊤

/-- Latency-threshold filtering over the weighted list: those strictly under
the threshold in ms, else those tied for minimum latency. -/
def latencyFilter (thresh : Option ℤ) (wl : List Rpc) : List Rpc :=
  match thresh with
  | none => wl
  | some th =>
    let under := wl.filter (fun r => decide (r.latency * 1000 < (th : WithTop ℤ)))
    if under = [] then wl.filter (fun r => decide (r.latency = minLatency wl)) else under

/-- Round-robin pick candidates[idx % len(candidates)]; none on an empty list
(where the Python code raises). -/
def rrPick (cands : List Rpc) (idx : Nat) : Option Rpc :=
  cands.get? (idx % cands.length)

/-- The selection pipeline applied to the rate-limit survivors: tier split,
weight expansion, latency filter, round-robin. -/
def selectRpc (avail : List Rpc) (pUrls sUrls : List String) (wts : String → Nat)
    (thresh : Option ℤ) (idx : Nat) : Option Rpc :=
  rrPick (latencyFilter thresh (weightedList wts (chosenSet avail pUrls sUrls))) idx

/-- A healthy primary endpoint for selector witnesses. -/
def rpcP : Rpc :=
  { url := "a", max_tps := 0, healthy := true, behind := 0, latest_block := 7,
    latency := (3 : ℤ), errors := 0, call_count := 0, timestamps := [] }

/-- A healthy secondary endpoint for selector witnesses. -/
def rpcS : Rpc :=
  { url := "b", max_tps := 0, healthy := true, behind := 0, latest_block := 7,
    latency := (9 : ℤ), errors := 0, call_count := 0, timestamps := [] }

/-- The JSON-RPC error body returned by the handler, carrying the client's id
(0 when the request has no id field). -/
def errorBody (reqId : Option JVal) (code : Int) (msg : String) : Resp :=
  [("jsonrpc", jstr "2.0"), ("id", reqId.getD (jnum 0)),
   ("error", jobjCons "code" (jnum code) (jobjCons "message" (jstr msg) jobjNil))]

/-- Outcome of one pass of the relay's endpoint-acquisition loop. -/
inductive SelectOutcome where
  | noHealthy : Nat → Resp → SelectOutcome
  | allLimited : SelectOutcome
  | failed : SelectOutcome
  | picked : Rpc → SelectOutcome
deriving DecidableEq

/-- The in-place window pruning the loop performs on each healthy record. -/
def pruneHealthy (rpcs : List Rpc) (now : ℤ) : List Rpc :=
  rpcs.map (fun r =>
    if r.healthy then { r with timestamps := pruneWindow r.timestamps now } else r)

/-- record_rpc_call plus the timestamp append on the selected endpoint: the
first record with the selected url gets now appended to its (pruned) window
and its call_count bumped. -/
def recordCall : List Rpc → String → ℤ → List Rpc
  | [], _, _ => []
  | r :: rest, u, now =>
    if r.url = u then
      { r with timestamps := r.timestamps ++ [now], call_count := r.call_count + 1 } :: rest
    else r :: recordCall rest u now

/-- One pass of the relay handler's selection loop (main.py lines 249-318):
an empty healthy list yields the -32000 error at HTTP 500 with the monitor
state untouched; otherwise windows are pruned, rate-limited survivors are
computed, an empty survivor set reports the 50 ms back-off, and a pick
records the call and advances the round-robin counter.  The failed outcome
models the uncaught exception when the candidate list is empty. -/
def selectPhase (rpcs : List Rpc) (pUrls sUrls : List String) (wts : String → Nat)
    (thresh : Option ℤ) (idx : Nat) (now : ℤ) (reqId : Option JVal) :
    SelectOutcome × List Rpc × Nat :=
  if get_healthy_rpcs rpcs = [] then
    (.noHealthy 500 (errorBody reqId (-32000) "No healthy RPCs available"), rpcs, idx)
  else
    let avail := (get_healthy_rpcs rpcs).filter (fun r => rateLimitOk r now)
    let rpcs1 := pruneHealthy rpcs now
    if avail = [] then (.allLimited, rpcs1, idx)
    else
      match selectRpc avail pUrls sUrls wts thresh idx with
      | none => (.failed, rpcs1, idx)
      | some e => (.picked e, recordCall rpcs1 e.url now, idx + 1)

/-- An unhealthy endpoint record for the C6 witness. -/
def rpcDown : Rpc :=
  { url := "a", max_tps := 0, healthy := false, behind := ⊤, latest_block := 0,
    latency := ⊤, errors := 3, call_count := 5, timestamps := [1] }

/-- Result of the upstream forward: the parsed JSON body on success, or the
exception detail string on transport error, timeout or unparseable body. -/
abbrev ForwardResult := Except String Resp

/-- The forward and cache-fill step of the handler (main.py lines 342-360):
a forwarding error yields the -32603 envelope at HTTP 500 with the cache
untouched; a success returns the upstream body and fills the cache when the
method is cacheable. -/
def forwardPhase (cache : Cache) (ttl : List (String × ℤ)) (method : String)
    (params : JVal) (reqId : Option JVal) (now : ℤ) (upstream : ForwardResult) :
    (Nat × Resp) × Cache :=
  match upstream with
  | .error msg =>
    ((500, errorBody reqId (-32603) ("Upstream provider error: " ++ msg)), cache)
  | .ok body => ((200, body), cacheStore cache ttl method params body now)

/-- The selections of the handler's round-robin over consecutive counter
values i0, i0 + 1, ..., i0 + n - 1 on a fixed candidate list. -/
def rrSelections (cands : List Rpc) (i0 n : Nat) : List (Option Rpc) :=
  (List.range n).map (fun j => rrPick cands (i0 + j))

/-- build_url_weights: flat {url: weight} map, weight defaulting to 1, built
in order over primary then secondary (later entries overwrite earlier). -/
def build_url_weights (cfg : Config) : List (String × Nat) :=
  (cfg.primary ++ cfg.secondary).foldl (fun acc ep =>
    match ep.url with
    | some u => if u ≠ "" then dictSet acc u (ep.weight.getD 1) else acc
    | none => acc) []

/-- The module-level state of main.py that reload_config_if_changed touches
(the monitor object itself is modelled separately). -/
structure MainState where
  config : Config
  snapshot : Config
  lastCheck : ℤ
  urlWeights : List (String × Nat)
  cacheTtl : List (String × ℤ)
  cache : Cache
deriving DecidableEq

/-- reload_config_if_changed (main.py lines 79-111): throttle first (the
check timestamp advances before the read is attempted), then read; a failed
read keeps everything else; a changed parse is published with rebuilt weights
and cache_ttl, clearing the cache when cache_ttl became empty.  The boolean
reports whether the file read was attempted. -/
def reload_config_if_changed (st : MainState) (now : ℤ) (readCfg : Option Config) :
    MainState × Bool :=
  if now - st.lastCheck < 30 then (st, false)
  else
    let st1 := { st with lastCheck := now }
    match readCfg with
    | none => (st1, true)
    | some cfg =>
      if cfg ≠ st.snapshot then
        ({ config := cfg, snapshot := cfg, lastCheck := now,
           urlWeights := build_url_weights cfg, cacheTtl := cfg.cache_ttl,
           cache := if cfg.cache_ttl = [] then [] else st.cache }, true)
      else (st1, true)

/-- The monitor state that _reload_config touches (column widths, which are
presentation only, are omitted). -/
structure MonState where
  config : Config
  snapshot : Config
  lastReload : ℤ
  maxBehind : Nat
  rpcs : List Rpc
deriving DecidableEq

/-- The incoming {url: max_tps} dict of _reload_config. -/
def incomingTps (cfg : Config) : List (String × Nat) :=
  (cfg.primary ++ cfg.secondary).foldl (fun acc ep =>
    match ep.url with
    | some u => if u ≠ "" then dictSet acc u (ep.max_tps.getD 0) else acc
    | none => acc) []

/-- Python set equality of two url lists. -/
def sameUrlSet (a b : List String) : Bool :=
  decide (∀ u ∈ a, u ∈ b) && decide (∀ u ∈ b, u ∈ a)

/-- The old_state dict of _reload_config: url to (call_count, timestamps,
latest_block), built in list order. -/
def oldState (rpcs : List Rpc) : List (String × (Nat × List ℤ × Nat)) :=
  rpcs.foldl (fun acc r => dictSet acc r.url (r.call_count, r.timestamps, r.latest_block)) []

/-- Restore call_count, timestamps and latest_block of a rebuilt record from
the old state when its url matches. -/
def restoreFrom (old : List (String × (Nat × List ℤ × Nat))) (r : Rpc) : Rpc :=
  match dictFind old r.url with
  | some s => { r with call_count := s.1, timestamps := s.2.1, latest_block := s.2.2 }
  | none => r

/-- The body of _reload_config run on a successfully parsed config: on a
structural change, republish the snapshot, refresh max_blocks_behind, and
either rebuild the endpoint list (url set changed, carrying state over) or
update max_tps in place. -/
def monReloadApply (st : MonState) (cfg : Config) : MonState :=
  if cfg ≠ st.snapshot then
    let incoming := incomingTps cfg
    let newRpcs :=
      if sameUrlSet (incoming.map Prod.fst) (st.rpcs.map Rpc.url) then
        st.rpcs.map (fun r =>
          match dictFind incoming r.url with
          | some tps => { r with max_tps := tps }
          | none => r)
      else
        (build_initial_rpc_list cfg).map (restoreFrom (oldState st.rpcs))
    { config := cfg, snapshot := cfg, lastReload := st.lastReload,
      maxBehind := cfg.max_blocks_behind.getD st.maxBehind, rpcs := newRpcs }
  else st

/-- _reload_config (health_monitor.py lines 81-145): throttle, then read; on
a read failure return WITHOUT advancing the throttle timestamp; on a
successful read apply the change and only then set the timestamp.  The
boolean reports whether the file read was attempted. -/
def monitor_reload_config (st : MonState) (now : ℤ) (readCfg : Option Config) :
    MonState × Bool :=
  if now - st.lastReload < 30 then (st, false)
  else
    match readCfg with
    | none => (st, true)
    | some cfg => ({ monReloadApply st cfg with lastReload := now }, true)

/-- A concrete monitor state for the C9 counterexample and witnesses. -/
def monW : MonState :=
  { config := cfgW, snapshot := cfgW, lastReload := 0, maxBehind := 6,
    rpcs := [rpcW "a"] }

/-- A concrete handler state for the C9 witness. -/
def mainW : MainState :=
  { config := cfgW, snapshot := cfgW, lastCheck := 0,
    urlWeights := build_url_weights cfgW, cacheTtl := cfgW.cache_ttl, cache := [] }

theorem insertLe_perm {α : Type} (le : α → α → Bool) (x : α) (l : List α) :
    (insertLe le x l).Perm (x :: l) := by
  induction l with
  | nil => simp [insertLe]
  | cons y ys ih =>
    by_cases h : le x y
    · simp [insertLe, h]
    · simp only [insertLe, h, if_neg]
      exact (ih.cons y).trans (List.Perm.swap x y ys)

theorem sortLe_perm {α : Type} (le : α → α → Bool) (l : List α) :
    (sortLe le l).Perm l := by
  induction l with
  | nil => simp [sortLe]
  | cons x xs ih => exact (insertLe_perm le x (sortLe le xs)).trans (ih.cons x)

/-- C2: if the rate-limit filter admits an endpoint with max_tps > 0 at time t,
then after the send timestamp is appended its window holds at most max_tps
timestamps in (t - 1 s, t]. -/
theorem rate_limit_sound (r : Rpc) (t : ℤ) (hm : 0 < r.max_tps)
    (h : rateLimitOk r t = true) :
    countLastSecond (windowAfterSelect r t) t ≤ r.max_tps := by
  have hlt : tpsCount (pruneWindow r.timestamps t) t < r.max_tps := by
    rcases Bool.or_eq_true_iff.mp h with h1 | h2
    · exact absurd (of_decide_eq_true h1) (by omega)
    · exact of_decide_eq_true h2
  have hmono : countLastSecond (pruneWindow r.timestamps t) t
      ≤ tpsCount (pruneWindow r.timestamps t) t := by
    apply List.countP_mono_left
    intro x _ hx
    have hx' := of_decide_eq_true hx
    exact decide_eq_true (by linarith [hx'.1])
  have hsingle : countLastSecond [t] t = 1 := by
    have hd : decide (t - 1 < t ∧ t ≤ t) = true :=
      decide_eq_true ⟨by linarith, le_refl t⟩
    simp [countLastSecond, List.countP_cons, hd]
  have hsplit : countLastSecond (windowAfterSelect r t) t
      = countLastSecond (pruneWindow r.timestamps t) t + countLastSecond [t] t := by
    simp [countLastSecond, windowAfterSelect, List.countP_append]
  omega

/-- Witness for rate_limit_sound at a concrete endpoint and time. -/
theorem rate_limit_sound_witness :
    0 < (2 : Nat) ∧
    countLastSecond (windowAfterSelect
      ⟨"u", 2, true, 0, 0, ⊤, 0, 1, [(0 : ℤ), 10]⟩ 10) 10 ≤ 2 :=
  ⟨by decide, rate_limit_sound ⟨"u", 2, true, 0, 0, ⊤, 0, 1, [(0 : ℤ), 10]⟩ 10
    (by decide) (by decide)⟩

theorem probePhase_get? (probe : Probe) :
    ∀ (rs : List Rpc) (i0 j : Nat),
      (probePhase probe i0 rs).get? j = (rs.get? j).map (fun r => probeOne (probe (i0 + j)) r) := by
  intro rs
  induction rs with
  | nil => intro i0 j; simp [probePhase]
  | cons r rest ih =>
    intro i0 j
    cases j with
    | zero => simp [probePhase]
    | succ j' =>
      simp only [probePhase, List.get?_cons_succ]
      rw [ih (i0 + 1) j']
      have : i0 + 1 + j' = i0 + (j' + 1) := by omega
      rw [this]

theorem dictGetD_not_mem {α β : Type} [DecidableEq α] :
    ∀ (l : List (α × β)) (k : α) (d : β), k ∉ l.map Prod.fst → dictGetD l k d = d := by
  intro l
  induction l with
  | nil => intro k d _; rfl
  | cons p rest ih =>
    intro k d hk
    simp only [List.map_cons, List.mem_cons] at hk
    push_neg at hk
    have hne : p.1 ≠ k := fun h => hk.1 h.symm
    cases p with
    | mk k' v =>
      simp only [dictGetD]
      rw [if_neg hne]
      exact ih k d hk.2

theorem tempBlocks_keys_sub (probe : Probe) :
    ∀ (rs : List Rpc) (i0 : Nat) (k : String),
      k ∈ (tempBlocks probe i0 rs).map Prod.fst → k ∈ rs.map Rpc.url := by
  intro rs
  induction rs with
  | nil => intro i0 k h; simp [tempBlocks] at h
  | cons r rest ih =>
    intro i0 k h
    simp only [List.map_cons, List.mem_cons]
    cases hp : probe i0 with
    | none =>
      simp only [tempBlocks, hp] at h
      exact Or.inr (ih (i0 + 1) k h)
    | some p =>
      simp only [tempBlocks, hp, List.map_cons, List.mem_cons] at h
      rcases h with h | h
      · exact Or.inl h
      · exact Or.inr (ih (i0 + 1) k h)

theorem tempBlocks_lookup (probe : Probe) :
    ∀ (rs : List Rpc) (i0 j : Nat) (r : Rpc) (b : Nat) (lat : ℤ),
      (rs.map Rpc.url).Nodup → rs.get? j = some r → probe (i0 + j) = some (b, lat) →
      dictGetD (tempBlocks probe i0 rs) r.url 0 = b := by
  intro rs
  induction rs with
  | nil => intro i0 j r b lat _ hj _; simp at hj
  | cons x rest ih =>
    intro i0 j r b lat hnd hj hp
    simp only [List.map_cons, List.nodup_cons] at hnd
    cases j with
    | zero =>
      simp only [List.get?_cons_zero, Option.some_inj] at hj
      subst hj
      have hx : i0 + 0 = i0 := by omega
      rw [hx] at hp
      simp only [tempBlocks, hp, dictGetD, if_pos rfl]
      apply dictGetD_not_mem
      intro hmem
      exact hnd.1 (tempBlocks_keys_sub probe rest (i0 + 1) x.url hmem)
    | succ j' =>
      simp only [List.get?_cons_succ] at hj
      have hp' : probe (i0 + 1 + j') = some (b, lat) := by
        have : i0 + 1 + j' = i0 + (j' + 1) := by omega
        rw [this]; exact hp
      have hmem : r.url ∈ rest.map Rpc.url := by
        have := List.get?_mem hj
        exact List.mem_map_of_mem Rpc.url this
      cases hq : probe i0 with
      | none =>
        simp only [tempBlocks, hq]
        exact ih (i0 + 1) j' r b lat hnd.2 hj hp'
      | some p =>
        have hne : x.url ≠ r.url := fun h => hnd.1 (h ▸ hmem)
        simp only [tempBlocks, hq, dictGetD, if_neg hne]
        exact ih (i0 + 1) j' r b lat hnd.2 hj hp'

theorem tempBlocks_mem (probe : Probe) :
    ∀ (rs : List Rpc) (i0 j : Nat) (r : Rpc) (b : Nat) (lat : ℤ),
      rs.get? j = some r → probe (i0 + j) = some (b, lat) →
      (r.url, b) ∈ tempBlocks probe i0 rs := by
  intro rs
  induction rs with
  | nil => intro i0 j r b lat hj _; simp at hj
  | cons x rest ih =>
    intro i0 j r b lat hj hp
    cases j with
    | zero =>
      simp only [List.get?_cons_zero, Option.some_inj] at hj
      subst hj
      have hx : i0 + 0 = i0 := by omega
      rw [hx] at hp
      simp [tempBlocks, hp]
    | succ j' =>
      simp only [List.get?_cons_succ] at hj
      have hp' : probe (i0 + 1 + j') = some (b, lat) := by
        have : i0 + 1 + j' = i0 + (j' + 1) := by omega
        rw [this]; exact hp
      cases hq : probe i0 with
      | none => simp only [tempBlocks, hq]; exact ih (i0 + 1) j' r b lat hj hp'
      | some p =>
        simp only [tempBlocks, hq, List.mem_cons]
        exact Or.inr (ih (i0 + 1) j' r b lat hj hp')

theorem le_maxBlockNat : ∀ (l : List Nat) (a : Nat), a ∈ l → a ≤ maxBlockNat l := by
  intro l
  induction l with
  | nil => intro a h; simp at h
  | cons x rest ih =>
    intro a h
    rcases List.mem_cons.mp h with h | h
    · subst h; exact le_max_left _ _
    · exact le_trans (ih a h) (le_max_right _ _)

/-- C1: after update_statuses, an endpoint is healthy iff its probe in that
cycle succeeded and M - latest_block <= max_blocks_behind, where M is the
largest latest_block among endpoints whose probe succeeded (0 if none); every
healthy endpoint records behind = M - latest_block, and every unhealthy
endpoint (probe failure or staleness demotion) records behind = infinity. -/
theorem update_statuses_spec (probe : Probe) (mb : Nat) (rpcs : List Rpc)
    (hnd : (rpcs.map Rpc.url).Nodup) (i : Nat) (r : Rpc)
    (hout : (update_statuses probe mb rpcs).get? i = some r) :
    (r.healthy = true ↔ ∃ b lat, probe i = some (b, lat) ∧ maxBlock probe rpcs - b ≤ mb)
    ∧ (∀ b lat, probe i = some (b, lat) →
        b ≤ maxBlock probe rpcs ∧ r.latest_block = b
        ∧ (maxBlock probe rpcs - b ≤ mb → r.behind = ((maxBlock probe rpcs - b : Nat) : ℕ∞)))
    ∧ (r.healthy = false → r.behind = ⊤) := by
  have h1 : (update_statuses probe mb rpcs).get? i
      = (rpcs.get? i).map (fun r0 =>
          classifyPhase (tempBlocks probe 0 rpcs) (maxBlock probe rpcs) mb
            (probeOne (probe (0 + i)) r0)) := by
    unfold update_statuses
    rw [List.get?_map, probePhase_get? probe rpcs 0 i, Option.map_map]
    rfl
  rw [h1] at hout
  cases hr0 : rpcs.get? i with
  | none => rw [hr0] at hout; simp at hout
  | some r0 =>
    rw [hr0] at hout
    rw [Option.map_some'] at hout
    have hout : classifyPhase (tempBlocks probe 0 rpcs) (maxBlock probe rpcs) mb
        (probeOne (probe (0 + i)) r0) = r := Option.some_inj.mp hout
    rw [Nat.zero_add] at hout
    cases hp : probe i with
    | none =>
      rw [hp] at hout
      have hr : r = { r0 with healthy := false, latency := ⊤, behind := ⊤, errors := r0.errors + 1 } := by
        rw [← hout]; simp [classifyPhase, probeOne]
      subst hr
      refine ⟨by simp, ?_, fun _ => rfl⟩
      intro b lat hb; exact absurd hb (by simp)
    | some p =>
      obtain ⟨b, lat⟩ := p
      rw [hp] at hout
      have hlb : dictGetD (tempBlocks probe 0 rpcs) r0.url 0 = b := by
        apply tempBlocks_lookup probe rpcs 0 i r0 b lat hnd hr0
        rw [Nat.zero_add]; exact hp
      have hble : b ≤ maxBlock probe rpcs := by
        have hmem : (r0.url, b) ∈ tempBlocks probe 0 rpcs := by
          apply tempBlocks_mem probe rpcs 0 i r0 b lat hr0
          rw [Nat.zero_add]; exact hp
        apply le_maxBlockNat
        unfold blockNumbers
        exact List.mem_map_of_mem Prod.snd hmem
      by_cases hd : maxBlock probe rpcs - b > mb
      · have hr : r = { r0 with healthy := false, latency := (lat : WithTop ℤ), errors := 0, latest_block := b, behind := ⊤ } := by
          rw [← hout]
          simp only [probeOne, classifyPhase, hlb]
          simp only [if_pos hd, if_true]
        subst hr
        refine ⟨?_, ?_, fun _ => rfl⟩
        · constructor
          · intro hfalse; exact absurd hfalse (by simp)
          · rintro ⟨b', lat', hb', hle'⟩
            obtain ⟨hb1, _⟩ := Prod.mk.injEq .. ▸ (Option.some_inj.mp hb')
            exact absurd hle' (by omega)
        · intro b' lat' hb'
          obtain ⟨hb1, _⟩ := Prod.mk.injEq .. ▸ (Option.some_inj.mp hb')
          subst hb1
          exact ⟨hble, rfl, fun hle' => absurd hle' (by omega)⟩
      · have hr : r = { r0 with healthy := true, latency := (lat : WithTop ℤ), errors := 0, latest_block := b, behind := ((maxBlock probe rpcs - b : Nat) : ℕ∞) } := by
          rw [← hout]
          simp only [probeOne, classifyPhase, hlb]
          simp only [if_neg hd, if_true]
        subst hr
        refine ⟨?_, ?_, fun hfalse => absurd hfalse (by simp)⟩
        · exact ⟨fun _ => ⟨b, lat, rfl, by omega⟩, fun _ => rfl⟩
        · intro b' lat' hb'
          obtain ⟨hb1, _⟩ := Prod.mk.injEq .. ▸ (Option.some_inj.mp hb')
          subst hb1
          exact ⟨hble, rfl, fun _ => rfl⟩

/-- Witness for update_statuses_spec at a concrete cycle. -/
theorem update_statuses_spec_witness :
    (rOutW.healthy = true ↔ ∃ b lat, probeW 0 = some (b, lat) ∧ maxBlock probeW rpcsW - b ≤ 6)
    ∧ (∀ b lat, probeW 0 = some (b, lat) →
        b ≤ maxBlock probeW rpcsW ∧ rOutW.latest_block = b
        ∧ (maxBlock probeW rpcsW - b ≤ 6 → rOutW.behind = ((maxBlock probeW rpcsW - b : Nat) : ℕ∞)))
    ∧ (rOutW.healthy = false → rOutW.behind = ⊤) :=
  update_statuses_spec probeW 6 rpcsW (by decide) 0 rOutW (by decide)

theorem sortLe_of_all {α : Type} (le : α → α → Bool) :
    ∀ l : List α, (∀ a ∈ l, ∀ b ∈ l, le a b = true) → sortLe le l = l := by
  intro l
  induction l with
  | nil => intro _; rfl
  | cons x xs ih =>
    intro h
    have hxs : sortLe le xs = xs :=
      ih (fun a ha b hb => h a (List.mem_cons_of_mem x ha) b (List.mem_cons_of_mem x hb))
    simp only [sortLe, hxs]
    cases xs with
    | nil => rfl
    | cons y ys =>
      have hxy : le x y = true :=
        h x (List.mem_cons_self x _) y (List.mem_cons_of_mem x (List.mem_cons_self y ys))
      simp [insertLe, hxy]

theorem build_initial_mem (cfg : Config) (r : Rpc) (h : r ∈ build_initial_rpc_list cfg) :
    ∃ tps u, r = initRpc u tps := by
  unfold build_initial_rpc_list at h
  obtain ⟨ep, _, hep⟩ := List.mem_filterMap.mp h
  cases hu : ep.url with
  | none => rw [hu] at hep; simp at hep
  | some u =>
    rw [hu] at hep
    by_cases he : u = ""
    · simp [he] at hep
    · simp only [ne_eq, he, not_false_iff, if_true, Option.some_inj] at hep
      exact ⟨ep.max_tps.getD 0, u, hep.symm⟩

/-- C10: right after construction (before any probe) every endpoint kept from
the config is healthy with behind = 0, latest_block = 0, latency = infinity,
no errors, no calls and an empty window, and get_healthy_rpcs returns the
whole configured list, so the relay may forward to never-probed endpoints. -/
theorem initial_state_all_healthy (cfg : Config) :
    (∀ r ∈ build_initial_rpc_list cfg,
      r.healthy = true ∧ r.behind = 0 ∧ r.latest_block = 0 ∧ r.latency = ⊤
      ∧ r.errors = 0 ∧ r.call_count = 0 ∧ r.timestamps = [])
    ∧ get_healthy_rpcs (build_initial_rpc_list cfg) = build_initial_rpc_list cfg := by
  have hfields : ∀ r ∈ build_initial_rpc_list cfg,
      r.healthy = true ∧ r.behind = 0 ∧ r.latest_block = 0 ∧ r.latency = ⊤
      ∧ r.errors = 0 ∧ r.call_count = 0 ∧ r.timestamps = [] := by
    intro r hr
    obtain ⟨tps, u, hr'⟩ := build_initial_mem cfg r hr
    subst hr'
    exact ⟨rfl, rfl, rfl, rfl, rfl, rfl, rfl⟩
  refine ⟨hfields, ?_⟩
  unfold get_healthy_rpcs
  have hfilter : (build_initial_rpc_list cfg).filter (fun r => r.healthy)
      = build_initial_rpc_list cfg :=
    List.filter_eq_self.mpr (fun r hr => (hfields r hr).1)
  rw [hfilter]
  apply sortLe_of_all
  intro a ha b hb
  have hA := hfields a ha
  have hB := hfields b hb
  unfold rpcLe
  apply decide_eq_true
  exact Or.inr ⟨by rw [hA.2.1, hB.2.1], by rw [hA.2.2.2.1, hB.2.2.2.1]⟩

/-- Witness for initial_state_all_healthy at a concrete config. -/
theorem initial_state_all_healthy_witness :
    ((initRpc "a" 0).healthy = true ∧ (initRpc "a" 0).behind = 0
      ∧ (initRpc "a" 0).latest_block = 0 ∧ (initRpc "a" 0).latency = ⊤
      ∧ (initRpc "a" 0).errors = 0 ∧ (initRpc "a" 0).call_count = 0
      ∧ (initRpc "a" 0).timestamps = [])
    ∧ get_healthy_rpcs (build_initial_rpc_list cfgW) = build_initial_rpc_list cfgW :=
  ⟨(initial_state_all_healthy cfgW).1 (initRpc "a" 0) (by decide),
   (initial_state_all_healthy cfgW).2⟩

theorem dictFind_cons {α β : Type} [DecidableEq α] (k1 : α) (v1 : β) (rest : List (α × β))
    (k2 : α) : dictFind ((k1, v1) :: rest) k2 = if k1 = k2 then some v1 else dictFind rest k2 := by
  by_cases h : k1 = k2
  · rw [dictFind, List.find?_cons_of_pos _ (by simpa using h), if_pos h]
    rfl
  · rw [dictFind, List.find?_cons_of_neg _ (by simpa using h), if_neg h]
    rfl

theorem dictFind_dictSet_same {α β : Type} [DecidableEq α] (l : List (α × β)) (k : α) (v : β) :
    dictFind (dictSet l k v) k = some v := by
  induction l with
  | nil => simp [dictSet, dictFind_cons]
  | cons p rest ih =>
    obtain ⟨k1, v1⟩ := p
    by_cases h : k1 = k
    · simp [dictSet, h, dictFind_cons]
    · simp only [dictSet, if_neg h]
      rw [dictFind_cons, if_neg h]
      exact ih

theorem dictFind_dictSet_other {α β : Type} [DecidableEq α] (l : List (α × β)) (k : α) (v : β)
    (k2 : α) (h : k2 ≠ k) : dictFind (dictSet l k v) k2 = dictFind l k2 := by
  have hkk : k ≠ k2 := fun he => h he.symm
  induction l with
  | nil => simp [dictSet, dictFind_cons, if_neg hkk, dictFind]
  | cons p rest ih =>
    obtain ⟨k1, v1⟩ := p
    by_cases hk : k1 = k
    · subst hk
      have hset : dictSet ((k1, v1) :: rest) k1 v = (k1, v) :: rest := by simp [dictSet]
      rw [hset, dictFind_cons, dictFind_cons, if_neg hkk, if_neg hkk]
    · simp only [dictSet, if_neg hk]
      rw [dictFind_cons, dictFind_cons]
      by_cases h2 : k1 = k2
      · simp [h2]
      · rw [if_neg h2, if_neg h2]
        exact ih

theorem getField_setField_same (r : Resp) (k : String) (v : JVal) :
    getField (setField r k v) k = some v := dictFind_dictSet_same r k v

theorem getField_setField_other (r : Resp) (k : String) (v : JVal) (k2 : String)
    (h : k2 ≠ k) : getField (setField r k v) k2 = getField r k2 :=
  dictFind_dictSet_other r k v k2 h

/-- C3 counterexample: a cache hit does NOT leave the stored entry unchanged;
the Python code assigns the caller id into the stored response object itself,
so after a hit with caller id 2 on an entry stored with id 1 the cache
differs from what was stored. -/
theorem cache_lookup_mutates_store :
    (cacheLookup cacheC3 ttlC3 "eth_chainId" jarrNil (jnum 2) 10).isSome = true
    ∧ (cacheLookup cacheC3 ttlC3 "eth_chainId" jarrNil (jnum 2) 10).map Prod.snd
        ≠ some cacheC3 := by
  constructor
  · decide
  · decide

/-- C3 (amended): on a cache hit the returned response is the stored response
with only the top-level id replaced by the caller's id, and the stored entry
is updated in place to that same response (same stored_at time); every field
other than id is unchanged in both, and every other cache key is untouched. -/
theorem cache_lookup_hit_spec (cache : Cache) (ttl : List (String × ℤ)) (method : String)
    (params : JVal) (cid : JVal) (now : ℤ) (resp : Resp) (cache1 : Cache) (e : CacheEntry)
    (hfind : dictFind cache (method, params) = some e)
    (hhit : cacheLookup cache ttl method params cid now = some (resp, cache1)) :
    resp = setField e.response "id" cid
    ∧ getField resp "id" = some cid
    ∧ (∀ k, k ≠ "id" → getField resp k = getField e.response k)
    ∧ dictFind cache1 (method, params) = some ⟨e.time, resp⟩
    ∧ (∀ k2, k2 ≠ (method, params) → dictFind cache1 k2 = dictFind cache k2) := by
  unfold cacheLookup at hhit
  cases httl : dictFind ttl method with
  | none => rw [httl] at hhit; simp at hhit
  | some tl =>
    rw [httl, hfind] at hhit
    simp only [] at hhit
    by_cases hfresh : now - e.time < tl
    · rw [if_pos hfresh] at hhit
      have hp := Option.some_inj.mp hhit
      have hresp : setField e.response "id" cid = resp := congrArg Prod.fst hp
      have hcache : dictSet cache (method, params) ⟨e.time, setField e.response "id" cid⟩
          = cache1 := congrArg Prod.snd hp
      refine ⟨hresp.symm, ?_, ?_, ?_, ?_⟩
      · rw [← hresp]; exact getField_setField_same e.response "id" cid
      · intro k hk; rw [← hresp]; exact getField_setField_other e.response "id" cid k hk
      · rw [← hcache, hresp]; exact dictFind_dictSet_same cache (method, params) _
      · intro k2 hk2; rw [← hcache]; exact dictFind_dictSet_other cache (method, params) _ k2 hk2
    · rw [if_neg hfresh] at hhit; simp at hhit

/-- Witness for cache_lookup_hit_spec at a concrete hit. -/
theorem cache_lookup_hit_spec_witness :
    respOutC3 = setField respC3 "id" (jnum 2)
    ∧ getField respOutC3 "id" = some (jnum 2)
    ∧ getField respOutC3 "result" = getField respC3 "result"
    ∧ dictFind cacheOutC3 ("eth_chainId", jarrNil) = some ⟨0, respOutC3⟩ := by
  have h := cache_lookup_hit_spec cacheC3 ttlC3 "eth_chainId" jarrNil (jnum 2) 10
    respOutC3 cacheOutC3 ⟨0, respC3⟩ (by decide) (by decide)
  exact ⟨h.1, h.2.1, h.2.2.1 "result" (by decide), h.2.2.2.1⟩

/-- C4: storing a response for a cacheable method and looking the same method
and params up before the TTL expires hits, and the returned response equals
the stored one at every field other than the top-level id. -/
theorem cache_store_lookup_purity (cache : Cache) (ttl : List (String × ℤ))
    (method : String) (params : JVal) (R : Resp) (t0 t : ℤ) (cid : JVal) (tl : ℤ)
    (httl : dictFind ttl method = some tl) (hfresh : t - t0 < tl) :
    ∃ p, cacheLookup (cacheStore cache ttl method params R t0) ttl method params cid t
        = some p
      ∧ (∀ k, k ≠ "id" → getField p.1 k = getField R k) := by
  have hstore : cacheStore cache ttl method params R t0
      = dictSet cache (method, params) ⟨t0, R⟩ := by
    unfold cacheStore
    rw [httl]
    rfl
  have hfind : dictFind (dictSet cache (method, params) (⟨t0, R⟩ : CacheEntry)) (method, params)
      = some ⟨t0, R⟩ := dictFind_dictSet_same cache (method, params) ⟨t0, R⟩
  have hlook : cacheLookup (cacheStore cache ttl method params R t0) ttl method params cid t
      = some (setField R "id" cid,
          dictSet (dictSet cache (method, params) ⟨t0, R⟩) (method, params)
            ⟨t0, setField R "id" cid⟩) := by
    unfold cacheLookup
    rw [hstore, httl, hfind]
    simp only []
    rw [if_pos hfresh]
  exact ⟨_, hlook, fun k hk => getField_setField_other R "id" cid k hk⟩

/-- Witness for cache_store_lookup_purity: store then hit at a concrete input. -/
theorem cache_store_lookup_purity_witness :
    ∃ p, cacheLookup (cacheStore [] ttlC3 "eth_chainId" jarrNil respC3 0) ttlC3
        "eth_chainId" jarrNil (jnum 7) 10 = some p
      ∧ (∀ k, k ≠ "id" → getField p.1 k = getField respC3 k) :=
  cache_store_lookup_purity [] ttlC3 "eth_chainId" jarrNil respC3 0 10 (jnum 7) 60
    (by decide) (by decide)

theorem mem_weightedList (wts : String → Nat) :
    ∀ (l : List Rpc) (e : Rpc), e ∈ weightedList wts l → e ∈ l := by
  intro l
  induction l with
  | nil => intro e h; simp [weightedList] at h
  | cons r rest ih =>
    intro e h
    rcases List.mem_append.mp h with h | h
    · rw [List.eq_of_mem_replicate h]
      exact List.mem_cons_self r rest
    · exact List.mem_cons_of_mem r (ih e h)

theorem mem_latencyFilter (thresh : Option ℤ) (wl : List Rpc) (e : Rpc)
    (h : e ∈ latencyFilter thresh wl) : e ∈ wl := by
  cases thresh with
  | none => exact h
  | some th =>
    simp only [latencyFilter] at h
    by_cases hu : wl.filter (fun r => decide (r.latency * 1000 < (th : WithTop ℤ))) = []
    · rw [if_pos hu] at h
      exact (List.mem_filter.mp h).1
    · rw [if_neg hu] at h
      exact (List.mem_filter.mp h).1

/-- C5: whenever some primary endpoint survives the rate-limit filter, the
pipeline's selection (if it returns at all) is one of those primaries; a
secondary can be picked only when no primary survived. -/
theorem tier_preference (avail : List Rpc) (pUrls sUrls : List String)
    (wts : String → Nat) (thresh : Option ℤ) (idx : Nat)
    (hp : primariesOf avail pUrls ≠ []) (e : Rpc)
    (he : selectRpc avail pUrls sUrls wts thresh idx = some e) :
    e ∈ primariesOf avail pUrls := by
  have hchosen : chosenSet avail pUrls sUrls = primariesOf avail pUrls := by
    unfold chosenSet; rw [if_neg hp]
  have hmem : e ∈ latencyFilter thresh (weightedList wts (chosenSet avail pUrls sUrls)) := by
    unfold selectRpc rrPick at he
    exact List.get?_mem he
  rw [hchosen] at hmem
  exact mem_weightedList wts _ e (mem_latencyFilter thresh _ e hmem)

/-- Witness for tier_preference at a concrete survivor set. -/
theorem tier_preference_witness :
    rpcP ∈ primariesOf [rpcP, rpcS] ["a"] :=
  tier_preference [rpcP, rpcS] ["a"] ["b"] (fun _ => 1) none 0 (by decide) rpcP (by decide)

/-- C6: when the healthy list is empty the handler answers HTTP 500 with the
exact -32000 JSON-RPC error envelope carrying the client's id (0 when the
request has none), and neither the endpoint records nor the round-robin
counter change. -/
theorem no_healthy_error (rpcs : List Rpc) (pUrls sUrls : List String)
    (wts : String → Nat) (thresh : Option ℤ) (idx : Nat) (now : ℤ) (reqId : Option JVal)
    (h : get_healthy_rpcs rpcs = []) :
    selectPhase rpcs pUrls sUrls wts thresh idx now reqId
      = (.noHealthy 500
          [("jsonrpc", jstr "2.0"), ("id", reqId.getD (jnum 0)),
           ("error", jobjCons "code" (jnum (-32000))
             (jobjCons "message" (jstr "No healthy RPCs available") jobjNil))],
         rpcs, idx) := by
  unfold selectPhase
  rw [if_pos h]
  rfl

/-- Witness for no_healthy_error at a concrete all-down monitor state. -/
theorem no_healthy_error_witness :
    selectPhase [rpcDown] ["a"] [] (fun _ => 1) none 4 100 (some (jnum 9))
      = (.noHealthy 500
          [("jsonrpc", jstr "2.0"), ("id", (some (jnum 9)).getD (jnum 0)),
           ("error", jobjCons "code" (jnum (-32000))
             (jobjCons "message" (jstr "No healthy RPCs available") jobjNil))],
         [rpcDown], 4) :=
  no_healthy_error [rpcDown] ["a"] [] (fun _ => 1) none 4 100 (some (jnum 9)) (by decide)

/-- C7: when the forward fails, the handler returns HTTP 500 with the -32603
JSON-RPC error carrying the client's id and the failure detail, and the cache
is left exactly as it was (the cache-fill step runs only on success). -/
theorem upstream_error_spec (cache : Cache) (ttl : List (String × ℤ)) (method : String)
    (params : JVal) (reqId : Option JVal) (now : ℤ) (upstream : ForwardResult)
    (msg : String) (h : upstream = .error msg) :
    forwardPhase cache ttl method params reqId now upstream
      = ((500, [("jsonrpc", jstr "2.0"), ("id", reqId.getD (jnum 0)),
          ("error", jobjCons "code" (jnum (-32603))
            (jobjCons "message" (jstr ("Upstream provider error: " ++ msg)) jobjNil))]),
         cache) := by
  rw [h]
  rfl

/-- Witness for upstream_error_spec at a concrete failed forward. -/
theorem upstream_error_spec_witness :
    forwardPhase cacheC3 ttlC3 "eth_chainId" jarrNil (some (jnum 4)) 50
        (.error "timeout")
      = ((500, [("jsonrpc", jstr "2.0"), ("id", (some (jnum 4)).getD (jnum 0)),
          ("error", jobjCons "code" (jnum (-32603))
            (jobjCons "message" (jstr ("Upstream provider error: " ++ "timeout")) jobjNil))]),
         cacheC3) :=
  upstream_error_spec cacheC3 ttlC3 "eth_chainId" jarrNil (some (jnum 4)) 50
    (.error "timeout") "timeout" rfl

theorem weightedList_length (wts : String → Nat) :
    ∀ C : List Rpc, (weightedList wts C).length = (C.map (fun r => wts r.url)).sum := by
  intro C
  induction C with
  | nil => rfl
  | cons r rest ih => simp [weightedList, ih]

theorem count_weightedList (wts : String → Nat) :
    ∀ C : List Rpc, (C.map Rpc.url).Nodup → ∀ e ∈ C,
      (weightedList wts C).count e = wts e.url := by
  intro C
  induction C with
  | nil => intro _ e he; simp at he
  | cons r rest ih =>
    intro hnd e he
    simp only [List.map_cons, List.nodup_cons] at hnd
    simp only [weightedList, List.count_append]
    by_cases h : r = e
    · subst h
      have hnot : r ∉ weightedList wts rest := by
        intro hmem
        exact hnd.1 (List.mem_map_of_mem Rpc.url (mem_weightedList wts rest r hmem))
      rw [List.count_eq_zero.mpr hnot, List.count_replicate]
      simp
    · have he' : e ∈ rest := by
        rcases List.mem_cons.mp he with h0 | h0
        · exact absurd h0.symm h
        · exact h0
      rw [ih hnd.2 e he', List.count_replicate]
      have : (r == e) = false := by
        simp only [beq_eq_false_iff_ne, ne_eq]
        exact h
      rw [this]
      simp

theorem count_map_some (l : List Rpc) (e : Rpc) : (l.map some).count (some e) = l.count e := by
  induction l with
  | nil => rfl
  | cons x xs ih =>
    simp only [List.map_cons, List.count_cons, ih]
    by_cases h : x = e
    · simp [h]
    · simp [h]

theorem rrSelections_cycle (cands : List Rpc) (hne : cands ≠ []) (i0 : Nat) :
    rrSelections cands i0 cands.length = (cands.rotate (i0 % cands.length)).map some := by
  have hlen : 0 < cands.length := List.length_pos.mpr hne
  apply List.ext_get?
  intro j
  by_cases hj : j < cands.length
  · have hLlen : (rrSelections cands i0 cands.length).length = cands.length := by
      simp [rrSelections]
    have hRlen : ((cands.rotate (i0 % cands.length)).map some).length = cands.length := by
      simp
    have hmod : (i0 + j) % cands.length < cands.length := Nat.mod_lt _ hlen
    have hrot : j < (cands.rotate (i0 % cands.length)).length := by
      rw [List.length_rotate]; exact hj
    have harith : (j + i0 % cands.length) % cands.length = (i0 + j) % cands.length := by
      conv_rhs => rw [Nat.add_comm i0 j, Nat.add_mod]
      conv_lhs => rw [Nat.add_mod]
      rw [Nat.mod_mod_of_dvd i0 (dvd_refl cands.length)]
    have hL : (rrSelections cands i0 cands.length).get? j
        = some (cands.get? ((i0 + j) % cands.length)) := by
      unfold rrSelections rrPick
      rw [List.get?_map, List.get?_range hj]
      rfl
    have hR : ((cands.rotate (i0 % cands.length)).map some).get? j
        = some (cands.get? ((i0 + j) % cands.length)) := by
      rw [List.get?_map, List.get?_rotate hj, harith]
      rw [List.get?_eq_get hmod]
      rfl
    rw [hL, hR]
  · have hL : (rrSelections cands i0 cands.length).get? j = none := by
      rw [List.get?_eq_none]
      simp [rrSelections]
      omega
    have hR : ((cands.rotate (i0 % cands.length)).map some).get? j = none := by
      rw [List.get?_eq_none]
      simp
      omega
    rw [hL, hR]

theorem rrSelections_add (cands : List Rpc) (i0 m1 m2 : Nat) :
    rrSelections cands i0 (m1 + m2)
      = rrSelections cands i0 m1 ++ rrSelections cands (i0 + m1) m2 := by
  unfold rrSelections
  have hf : ((fun j => rrPick cands (i0 + j)) ∘ fun x => m1 + x)
      = fun j => rrPick cands (i0 + m1 + j) := by
    funext j
    simp only [Function.comp]
    congr 1
    omega
  rw [List.range_add, List.map_append, List.map_map, hf]

theorem rrSelections_cycles_count (cands : List Rpc) (hne : cands ≠ []) (e : Rpc) :
    ∀ k i0, (rrSelections cands i0 (k * cands.length)).count (some e)
      = k * cands.count e := by
  intro k
  induction k with
  | zero => intro i0; simp [rrSelections]
  | succ k ih =>
    intro i0
    have hsplit : (k + 1) * cands.length = cands.length + k * cands.length := by ring
    rw [hsplit, rrSelections_add, List.count_append, rrSelections_cycle cands hne i0, ih]
    rw [count_map_some]
    rw [(List.rotate_perm cands (i0 % cands.length)).count_eq e]
    ring

/-- C8: with a stable candidate set (fixed rate-limit survivors, fixed
weights, no latency filtering) whose urls are distinct, the weighted list has
length equal to the sum of the weights, and any k full cycles of that many
consecutive round-robin selections, starting from any counter value, pick
each endpoint exactly k * weight(e) times. -/
theorem round_robin_weight_fairness (C : List Rpc) (wts : String → Nat)
    (hnd : (C.map Rpc.url).Nodup) (e : Rpc) (he : e ∈ C) (k i0 : Nat) :
    (weightedList wts C).length = (C.map (fun r => wts r.url)).sum
    ∧ (rrSelections (latencyFilter none (weightedList wts C)) i0
        (k * (weightedList wts C).length)).count (some e) = k * wts e.url := by
  refine ⟨weightedList_length wts C, ?_⟩
  have hcount : (weightedList wts C).count e = wts e.url :=
    count_weightedList wts C hnd e he
  have hfl : latencyFilter none (weightedList wts C) = weightedList wts C := rfl
  rw [hfl]
  by_cases hc : weightedList wts C = []
  · have hw : wts e.url = 0 := by rw [← hcount, hc]; rfl
    rw [hc, hw]
    simp [rrSelections]
  · rw [rrSelections_cycles_count (weightedList wts C) hc e k i0, hcount]

/-- Witness for round_robin_weight_fairness: two endpoints with weights 2 and
1, three cycles from counter value 5. -/
theorem round_robin_weight_fairness_witness :
    (weightedList (fun u => if u = "a" then 2 else 1) [rpcP, rpcS]).length
      = ([rpcP, rpcS].map (fun r => if r.url = "a" then 2 else 1)).sum
    ∧ (rrSelections (latencyFilter none
          (weightedList (fun u => if u = "a" then 2 else 1) [rpcP, rpcS])) 5
        (3 * (weightedList (fun u => if u = "a" then 2 else 1) [rpcP, rpcS]).length)).count
        (some rpcP) = 3 * 2 := by
  have h := round_robin_weight_fairness [rpcP, rpcS] (fun u => if u = "a" then 2 else 1)
    (by decide) rpcP (by decide) 3 5
  refine ⟨h.1, ?_⟩
  rw [h.2]
  decide

/-- C9 counterexample: two calls to the monitor's throttled reload one second
apart (40 and 41, both more than 30 s after the last successful reload) BOTH
read the file when the read fails, because a failed read does not advance the
monitor's throttle timestamp; so two calls within 30 s are not limited to a
single file read. -/
theorem monitor_reload_double_read :
    (41 : ℤ) - 40 < 30
    ∧ (monitor_reload_config monW 40 none).2 = true
    ∧ (monitor_reload_config (monitor_reload_config monW 40 none).1 41 none).2 = true := by
  refine ⟨?_, ?_, ?_⟩ <;> decide

theorem main_reload_lastCheck (st : MainState) (t1 : ℤ) (r1 : Option Config)
    (hd : (reload_config_if_changed st t1 r1).2 = true) :
    (reload_config_if_changed st t1 r1).1.lastCheck = t1 := by
  unfold reload_config_if_changed at hd ⊢
  by_cases h : t1 - st.lastCheck < 30
  · rw [if_pos h] at hd; simp at hd
  · rw [if_neg h]
    cases r1 with
    | none => rfl
    | some cfg =>
      by_cases hch : cfg ≠ st.snapshot
      · simp only [if_pos hch]
      · simp only [if_neg hch]

theorem main_reload_throttled (st : MainState) (t : ℤ) (r : Option Config)
    (h : t - st.lastCheck < 30) :
    reload_config_if_changed st t r = (st, false) := by
  unfold reload_config_if_changed
  rw [if_pos h]

theorem monitor_reload_lastReload (st : MonState) (t1 : ℤ) (cfg1 : Config)
    (hd : (monitor_reload_config st t1 (some cfg1)).2 = true) :
    (monitor_reload_config st t1 (some cfg1)).1.lastReload = t1 := by
  unfold monitor_reload_config at hd ⊢
  by_cases h : t1 - st.lastReload < 30
  · rw [if_pos h] at hd; simp at hd
  · rw [if_neg h]

theorem monitor_reload_throttled (st : MonState) (t : ℤ) (r : Option Config)
    (h : t - st.lastReload < 30) :
    monitor_reload_config st t r = (st, false) := by
  unfold monitor_reload_config
  rw [if_pos h]

/-- C9 (amended): two calls to the handler's throttled reload within 30 s of
each other perform at most one file read, and when the first call did read,
the second returns immediately with no read and no state change.  The
monitor's throttled reload has the same property when the first call's read
succeeds (a failed read does not advance its throttle timestamp, so a later
call within 30 s may read again, as the counterexample shows).  In both, a
failed read or parse leaves the config and its snapshot unchanged. -/
theorem reload_throttle_spec (st : MainState) (ms : MonState) (t1 t2 : ℤ)
    (r1 r2 : Option Config) (cfg1 : Config) (hlt : t2 - t1 < 30) :
    (¬((reload_config_if_changed st t1 r1).2 = true
        ∧ (reload_config_if_changed (reload_config_if_changed st t1 r1).1 t2 r2).2 = true))
    ∧ ((reload_config_if_changed st t1 r1).2 = true →
        reload_config_if_changed (reload_config_if_changed st t1 r1).1 t2 r2
          = ((reload_config_if_changed st t1 r1).1, false))
    ∧ ((monitor_reload_config ms t1 (some cfg1)).2 = true →
        monitor_reload_config (monitor_reload_config ms t1 (some cfg1)).1 t2 r2
          = ((monitor_reload_config ms t1 (some cfg1)).1, false))
    ∧ ((reload_config_if_changed st t1 none).1.config = st.config
        ∧ (reload_config_if_changed st t1 none).1.snapshot = st.snapshot)
    ∧ ((monitor_reload_config ms t1 none).1.config = ms.config
        ∧ (monitor_reload_config ms t1 none).1.snapshot = ms.snapshot) := by
  have hmain2 : (reload_config_if_changed st t1 r1).2 = true →
      reload_config_if_changed (reload_config_if_changed st t1 r1).1 t2 r2
        = ((reload_config_if_changed st t1 r1).1, false) := by
    intro hd
    apply main_reload_throttled
    rw [main_reload_lastCheck st t1 r1 hd]
    exact hlt
  have hmon2 : (monitor_reload_config ms t1 (some cfg1)).2 = true →
      monitor_reload_config (monitor_reload_config ms t1 (some cfg1)).1 t2 r2
        = ((monitor_reload_config ms t1 (some cfg1)).1, false) := by
    intro hd
    apply monitor_reload_throttled
    rw [monitor_reload_lastReload ms t1 cfg1 hd]
    exact hlt
  refine ⟨?_, hmain2, hmon2, ?_, ?_⟩
  · rintro ⟨hd1, hd2⟩
    rw [hmain2 hd1] at hd2
    simp at hd2
  · unfold reload_config_if_changed
    by_cases h : t1 - st.lastCheck < 30
    · rw [if_pos h]; exact ⟨rfl, rfl⟩
    · rw [if_neg h]; exact ⟨rfl, rfl⟩
  · unfold monitor_reload_config
    by_cases h : t1 - ms.lastReload < 30
    · rw [if_pos h]; exact ⟨rfl, rfl⟩
    · rw [if_neg h]; exact ⟨rfl, rfl⟩

/-- Witness for reload_throttle_spec at concrete states and times 40 and 41. -/
theorem reload_throttle_spec_witness :
    (¬((reload_config_if_changed mainW 40 none).2 = true
        ∧ (reload_config_if_changed (reload_config_if_changed mainW 40 none).1 41 none).2 = true))
    ∧ ((reload_config_if_changed mainW 40 none).2 = true →
        reload_config_if_changed (reload_config_if_changed mainW 40 none).1 41 none
          = ((reload_config_if_changed mainW 40 none).1, false))
    ∧ ((monitor_reload_config monW 40 (some cfgW)).2 = true →
        monitor_reload_config (monitor_reload_config monW 40 (some cfgW)).1 41 none
          = ((monitor_reload_config monW 40 (some cfgW)).1, false))
    ∧ ((reload_config_if_changed mainW 40 none).1.config = mainW.config
        ∧ (reload_config_if_changed mainW 40 none).1.snapshot = mainW.snapshot)
    ∧ ((monitor_reload_config monW 40 none).1.config = monW.config
        ∧ (monitor_reload_config monW 40 none).1.snapshot = monW.snapshot) :=
  reload_throttle_spec mainW monW 40 41 none none cfgW (by decide)
